import Mathlib

set_option autoImplicit false

/-! Shallow embedding of the diart audio sources, lazy model wrapper and
streaming configuration (src/diart/sources.py, src/diart/models.py,
src/diart/blocks/base.py), with proofs about chunk emission, padding,
lazy loading, weight normalization and configuration lookup. Audio samples
are modelled as exact numbers: integers for waveform samples, rationals
where real arithmetic matters. -/

/-! ### Broadcast channel events (rx Subject calls) -/

/-- Events pushed by a source into its broadcast channel (an rx Subject):
on_next carries a mono chunk, on_error and on_completed are terminal. -/
inductive StreamEvent where
  | next (chunk : List Int)
  | error
  | completed
deriving DecidableEq

/-- Whether an event is a terminal signal of the channel. -/
def StreamEvent.isTerminal : StreamEvent → Bool
  | .next _ => false
  | .error => true
  | .completed => true

/-- Rx Subject semantics: a Subject is stopped by its first terminal event,
and events pushed after on_error or on_completed are not delivered to
subscribers. delivered evs is the prefix a subscriber observes. -/
def delivered : List StreamEvent → List StreamEvent
  | [] => []
  | e :: rest => if e.isTerminal then [e] else e :: delivered rest

/-! ### FileAudioSource -/

/-- Chunking in FileAudioSource.read for a waveform of at least block_size
samples, where waveform.unfold(1, block_size, block_size) succeeds: it
yields the floor(n / block_size) complete blocks in chronological order;
when n mod block_size is nonzero, the remaining samples are padded on the
right with zeros to exactly block_size samples and appended as one extra
chunk. For fewer than block_size samples unfold raises instead of producing
this value; that path is modelled in fileRead. The AudioLoader is
constructed with mono=True, so the waveform has a single channel, modelled
as the list of its samples. -/
def fileChunks (blockSize : Nat) (w : List Int) : List (List Int) :=
  let numFull := w.length / blockSize
  let full := (List.range numFull).map fun j => (w.drop (j * blockSize)).take blockSize
  if w.length % blockSize = 0 then
    full
  else
    full ++ [w.drop (numFull * blockSize) ++
      List.replicate (blockSize - w.length % blockSize) 0]

/-- Calls made on the stream by the chunk loop of FileAudioSource.read:
stream.on_next is called with each chunk; when the push raises (a subscriber
callback failing, modelled by the raises predicate on the chunk index), the
exception is caught and stream.on_error is called, and the loop then
continues with the next chunk; after the loop, stream.on_completed is always
called. -/
def fileEmitCalls (chunks : List (List Int)) (raises : Nat → Bool) : List StreamEvent :=
  (chunks.enum.map fun p =>
    if raises p.1 then [StreamEvent.next p.2, StreamEvent.error]
    else [StreamEvent.next p.2]).flatten ++ [StreamEvent.completed]

/-- FileAudioSource.read: the waveform is loaded first, outside of any try
block, so a loading failure propagates to the caller (the Except error
case) and nothing is pushed on the stream. The chunking call
waveform.unfold(1, block_size, block_size) also sits outside the try block
and raises a RuntimeError whenever the waveform has fewer than block_size
samples (torch unfold demands size at most the dimension length), which
likewise propagates with nothing pushed. Otherwise the chunk loop runs and
the calls made on the stream are returned. -/
def fileRead (blockSize : Nat) (loadResult : Except String (List Int))
    (raises : Nat → Bool) : Except String (List StreamEvent) :=
  match loadResult with
  | .error e => .error e
  | .ok w =>
    if w.length < blockSize then
      .error "unfold: maximum size for tensor at dimension 1 exceeded"
    else
      .ok (fileEmitCalls (fileChunks blockSize w) raises)

/-! ### Chunk shapes (numpy arrays as nested lists) -/

/-- Shape of a two dimensional array modelled as a list of rows. -/
def chunkShape (c : List (List Int)) : List Nat :=
  [c.length, (c.headD []).length]

/-- The numpy column selection samples[:, [0]] in
MicrophoneAudioSource._read_callback: keep only column 0 of the
(frames, channels) capture block, giving shape (frames, 1). -/
def selectFirstChannel (samples : List (List Int)) : List (List Int) :=
  samples.map fun row => [row.headD 0]

/-- Transpose of a rectangular two dimensional array with the given number
of columns (the numpy .T attribute). -/
def transpose2d (m : List (List Int)) (cols : Nat) : List (List Int) :=
  (List.range cols).map fun j => m.map fun row => row.getD j 0

/-- MicrophoneAudioSource._read_callback enqueues samples[:, [0]].T, the
(1, frames) transpose of the first channel column. -/
def micChunk (samples : List (List Int)) : List (List Int) :=
  transpose2d (selectFirstChannel samples) 1

/-- Chunks emitted by FileAudioSource.read seen as two dimensional arrays:
iterating the stacked (chunk, channel, sample) numpy array yields one
(channel, sample) slice per chunk, with a single channel (mono loader). -/
def fileEmittedChunks (blockSize : Nat) (w : List Int) : List (List (List Int)) :=
  (fileChunks blockSize w).map fun blk => [blk]

/-! ### LazyModel -/

/-- State of a LazyModel wrapper. The injected loader is a zero argument
callable whose successive invocations may behave differently (the real
PyannoteLoader performs network fetches), so its outcomes are indexed by the
number of previous invocations, recorded in the ghost counter loaderCalls.
An invocation either returns a model or raises (the Except error case). -/
structure LazyModel (Model : Type) where
  get_model : Nat → Except String Model
  model : Option Model
  loaderCalls : Nat

/-- LazyModel.__init__: the loader is stored and the model field is None. -/
def LazyModel.mk0 {Model : Type} (loader : Nat → Except String Model) :
    LazyModel Model :=
  { get_model := loader, model := none, loaderCalls := 0 }

/-- LazyModel.is_in_memory: whether the model field is non null. -/
def LazyModel.is_in_memory {Model : Type} (s : LazyModel Model) : Bool :=
  s.model.isSome

/-- LazyModel.load: when the model is not in memory, invoke the loader and,
when it returns normally, store the result; a raised exception (the some
component of the returned pair) propagates to the caller and the model field
is left unchanged, the assignment never having run. -/
def LazyModel.load {Model : Type} (s : LazyModel Model) :
    LazyModel Model × Option String :=
  if s.is_in_memory then (s, none)
  else
    match s.get_model s.loaderCalls with
    | .ok m => ({ s with model := some m, loaderCalls := s.loaderCalls + 1 }, none)
    | .error e => ({ s with loaderCalls := s.loaderCalls + 1 }, some e)

/-- Operations on a LazyModel that force a load: load(), to(device), eval()
and invocation as a callable, named load, toDevice, evalMode and callForward
here. -/
inductive LazyOp where
  | load
  | toDevice
  | evalMode
  | callForward
deriving DecidableEq

/-- Effect of one operation on the wrapper state: every operation first
forces LazyModel.load; the remaining work only reads the model field (to and
call delegate to the loaded model, eval switches it to inference mode in
place unless it is a WeSpeaker embedding) and never writes the model field
or invokes the loader again. -/
def LazyModel.runOp {Model : Type} (s : LazyModel Model) (_ : LazyOp) :
    LazyModel Model × Option String :=
  s.load

/-- A caller performing a sequence of operations, observing each raised
exception and continuing with the next operation. -/
def LazyModel.runOps {Model : Type} (s : LazyModel Model) :
    List LazyOp → LazyModel Model
  | [] => s
  | op :: rest => ((s.runOp op).1).runOps rest

/-! ### Embedding weight normalization -/

/-- IEEE like value for the weight normalization: torch tensors hold floats,
where zero divided by zero is NaN and a nonzero value divided by zero is a
signed infinity. Finite values are modelled as exact rationals. -/
inductive FpVal where
  | nan
  | posinf
  | neginf
  | val (q : Rat)
deriving DecidableEq

/-- Float division for finite operands. -/
def fdiv (a b : Rat) : FpVal :=
  if b = 0 then
    if a = 0 then .nan else if 0 < a then .posinf else .neginf
  else .val (a / b)

/-- Minimum of a tensor row (torch .min over a nonempty dimension). -/
def rowMin : List Rat → Rat
  | [] => 0
  | x :: rest => rest.foldl min x

/-- Maximum of a tensor row (torch .max over a nonempty dimension). -/
def rowMax : List Rat → Rat
  | [] => 0
  | x :: rest => rest.foldl max x

/-- The in place update weights -= weights.min(dim=1, keepdim=True).values
applied to one batch row. -/
def subRowMin (xs : List Rat) : List Rat :=
  xs.map fun x => x - rowMin xs

/-- The in place update weights /= weights.max(dim=1, keepdim=True).values
applied to one batch row; the maximum is read from the tensor already
shifted in place by the previous statement. -/
def divRowMax (xs : List Rat) : List FpVal :=
  xs.map fun x => fdiv x (rowMax xs)

/-- The in place update weights.nan_to_num_(0.0): NaN becomes 0. The torch
default replacement of infinities by the largest finite floats never fires
here (divRowMax after subRowMin produces no infinity on finite input), so
infinities are left untouched by the model. -/
def nanToNum0 : FpVal → FpVal
  | .nan => .val 0
  | v => v

/-- Weight normalization of one batch row in PyannoteEmbeddingModel.__call__
for the WeSpeaker variant: subtract the row minimum in place, divide in
place by the row maximum of the shifted row, then replace NaN by zero. -/
def normalizeRow (xs : List Rat) : List FpVal :=
  (divRowMax (subRowMin xs)).map nanToNum0

/-- Per batch normalization: each row of the two dimensional weights tensor
is normalized independently (dim=1 reductions with keepdim=True broadcast
along the row). -/
def normalizeWeights (w : List (List Rat)) : List (List FpVal) :=
  w.map normalizeRow

/-- Kind of model an embedding wrapper can hold: the WeSpeaker pretrained
speaker embedding, or any other (torch module) model. -/
inductive EmbModel where
  | wespeaker
  | torchModule
deriving DecidableEq

/-- One call of PyannoteEmbeddingModel.__call__ with a non null weights
tensor. The dispatch isinstance(self.model, WeSpeakerPretrainedSpeakerEmbedding)
inspects the model field BEFORE any load: when the field does not currently
hold the WeSpeaker variant — in particular when it is still None on a cold
wrapper — the base LazyModel.__call__ runs, forcing the load and handing
the underlying model the weights unchanged (or handing nothing when the
loader raises). Only when the already loaded model is the WeSpeaker variant
does self.load() run as a no-op and the weights get normalized per row
before being handed over. Returns the updated wrapper state and the weights
the underlying model receives, finite raw values as FpVal.val. -/
def embeddingCall (s : LazyModel EmbModel) (weights : List (List Rat)) :
    LazyModel EmbModel × Option (List (List FpVal)) :=
  if s.model = some EmbModel.wespeaker then
    (s.load.1, some (normalizeWeights weights))
  else
    match s.load with
    | (s1, none) => (s1, some (weights.map fun row => row.map FpVal.val))
    | (s1, some _) => (s1, none)

/-- An embedding wrapper whose WeSpeaker model is already in memory. -/
def loadedWeSpeaker : LazyModel EmbModel :=
  { get_model := fun _ => Except.ok EmbModel.wespeaker,
    model := some EmbModel.wespeaker, loaderCalls := 1 }

/-! ### StreamingConfig and HyperParameter -/

/-- Round half to even on exact rationals (np.rint). -/
def rint (q : Rat) : Int :=
  if q - ⌊q⌋ < 1/2 then ⌊q⌋
  else if (1 : Rat)/2 < q - ⌊q⌋ then ⌊q⌋ + 1
  else if ⌊q⌋ % 2 = 0 then ⌊q⌋ else ⌊q⌋ + 1

/-- StreamingConfig.optimal_block_size returns
int(np.rint(self.step * self.sample_rate)); the int conversion of an
integral float is the identity, so the result is the rounded product. -/
def optimal_block_size (step : Rat) (sample_rate : Nat) : Int :=
  rint (step * sample_rate)

/-- Hyper parameter dataclass: a name and the documented (low, high) range. -/
structure HyperParameter where
  name : String
  low : Rat
  high : Rat
deriving DecidableEq

/-- The module level instance TauActive = HyperParameter("tau_active", 0, 1). -/
def TauActive : HyperParameter := { name := "tau_active", low := 0, high := 1 }

/-- The module level instance RhoUpdate = HyperParameter("rho_update", 0, 1). -/
def RhoUpdate : HyperParameter := { name := "rho_update", low := 0, high := 1 }

/-- The module level instance DeltaNew = HyperParameter("delta_new", 0, 2). -/
def DeltaNew : HyperParameter := { name := "delta_new", low := 0, high := 2 }

/-- HyperParameter.from_name: the three recognized names return the module
level instances; any other name raises ValueError right away, before any
stream is involved (the quoting characters of the message are omitted). -/
def HyperParameter.from_name (name : String) : Except String HyperParameter :=
  if name = "tau_active" then .ok TauActive
  else if name = "rho_update" then .ok RhoUpdate
  else if name = "delta_new" then .ok DeltaNew
  else .error ("Hyper-parameter " ++ name ++ " not recognized")

/-! ### WebSocketAudioSource.send -/

/-- Abstract state of a WebSocketAudioSource as seen by send: whether an
asyncio event loop started by read is running, and the messages scheduled so
far on the websocket. -/
structure WSState where
  loopRunning : Bool
  sent : List String
deriving DecidableEq

/-- WebSocketAudioSource.__init__ leaves no loop running and nothing sent. -/
def wsInit : WSState := { loopRunning := false, sent := [] }

/-- Error raised synchronously by send when no event loop is running; the
spec names this condition NotReadyError. The carried message explains that
read() must be called first (the source message contains an apostrophe,
rendered here as: is not). -/
inductive WSError where
  | notReady (msg : String)
deriving DecidableEq

/-- WebSocketAudioSource.read runs asyncio.run, which starts the event loop;
while read runs, that loop is the running loop. -/
def wsRead (s : WSState) : WSState := { s with loopRunning := true }

/-- WebSocketAudioSource.send: asyncio.get_running_loop() raises when no
loop is running, which is caught and re-raised as the not ready error before
anything is scheduled; the same error is raised when the loop is not
running. With a running loop, a truthy message is scheduled onto the loop
with run_coroutine_threadsafe and a falsy (empty) message is silently
dropped. -/
def wsSend (s : WSState) (message : String) : Except WSError WSState :=
  if s.loopRunning = false then
    .error (.notReady "Websocket is not open, try calling read() first")
  else if message ≠ "" then .ok { s with sent := s.sent ++ [message] }
  else .ok s

/-! ### Lemmas about fileChunks -/

theorem fileChunks_of_mod_eq_zero {b : Nat} {w : List Int} (h : w.length % b = 0) :
    fileChunks b w =
      (List.range (w.length / b)).map fun j => (w.drop (j * b)).take b := by
  simp [fileChunks, h]

theorem fileChunks_of_mod_ne_zero {b : Nat} {w : List Int} (h : w.length % b ≠ 0) :
    fileChunks b w =
      ((List.range (w.length / b)).map fun j => (w.drop (j * b)).take b) ++
        [w.drop (w.length / b * b) ++ List.replicate (b - w.length % b) 0] := by
  simp [fileChunks, h]

theorem drop_replicate' {α : Type} (n m : Nat) (a : α) :
    (List.replicate m a).drop n = List.replicate (m - n) a := by
  induction n generalizing m with
  | zero => simp
  | succ k ih =>
    cases m with
    | zero => simp
    | succ m' => simp [List.replicate_succ, ih m']

theorem fileChunks_chunk_length {b : Nat} (hb : 0 < b) (w : List Int) :
    ∀ c ∈ fileChunks b w, c.length = b := by
  have hfull : ∀ c ∈ (List.range (w.length / b)).map
      (fun j => (w.drop (j * b)).take b), c.length = b := by
    intro c hc
    obtain ⟨j, hj, rfl⟩ := List.mem_map.mp hc
    rw [List.mem_range] at hj
    have h1 : (j + 1) * b ≤ w.length / b * b := Nat.mul_le_mul_right b hj
    have h2 : w.length / b * b ≤ w.length := Nat.div_mul_le_self _ _
    rw [Nat.succ_mul] at h1
    simp only [List.length_take, List.length_drop]
    omega
  intro c hc
  by_cases h : w.length % b = 0
  · rw [fileChunks_of_mod_eq_zero h] at hc
    exact hfull c hc
  · rw [fileChunks_of_mod_ne_zero h] at hc
    rcases List.mem_append.mp hc with hc | hc
    · exact hfull c hc
    · have hc : c = w.drop (w.length / b * b) ++
          List.replicate (b - w.length % b) 0 := by simpa using hc
      subst hc
      have hdm : w.length / b * b + w.length % b = w.length := by
        rw [Nat.mul_comm]; exact Nat.div_add_mod _ _
      have hlt : w.length % b < b := Nat.mod_lt _ hb
      simp only [List.length_append, List.length_drop, List.length_replicate]
      omega

theorem fileChunks_length {b : Nat} {w : List Int} :
    (fileChunks b w).length =
      if w.length % b = 0 then w.length / b else w.length / b + 1 := by
  by_cases h : w.length % b = 0
  · rw [fileChunks_of_mod_eq_zero h, if_pos h]; simp
  · rw [fileChunks_of_mod_ne_zero h, if_neg h]; simp

theorem flatten_range_chunks (b : Nat) :
    ∀ (k : Nat) (w : List Int), w.length = k * b →
      ((List.range k).map fun j => (w.drop (j * b)).take b).flatten = w := by
  intro k
  induction k with
  | zero =>
    intro w hw
    simp only [Nat.zero_mul] at hw
    simp [List.length_eq_zero.mp hw]
  | succ k ih =>
    intro w hw
    rw [List.range_succ_eq_map]
    simp only [List.map_cons, List.map_map, List.flatten_cons, Nat.zero_mul,
      List.drop_zero]
    have hmap : (List.range k).map ((fun j => (w.drop (j * b)).take b) ∘ Nat.succ) =
        (List.range k).map fun j => (((w.drop b).drop (j * b)).take b) := by
      apply List.map_congr_left
      intro j _
      simp only [Function.comp_apply, List.drop_drop]
      rw [Nat.succ_mul, Nat.add_comm]
    rw [hmap, ih (w.drop b) (by simp only [List.length_drop, hw, Nat.succ_mul]; omega),
      List.take_append_drop]

/-! ### Claims C4 and C5: file chunking -/

/-- Claim C4 (amended): for a waveform of 5000 samples and block_size 1024,
FileAudioSource.read emits exactly 5 chunks, and the 5th chunk consists of
the 904 real samples past position 4096 followed by 120 trailing zero
samples, since 5000 mod 1024 = 904 and 1024 - 904 = 120 (the claimed values
856 and 168 are arithmetically wrong). -/
theorem file_5000_block_1024 (w : List Int) (h : w.length = 5000) :
    (fileChunks 1024 w).length = 5 ∧
    (fileChunks 1024 w).getLast? = some (w.drop 4096 ++ List.replicate 120 0) ∧
    (w.drop 4096).length = 904 ∧
    5000 % 1024 = 904 ∧ 1024 - 5000 % 1024 = 120 := by
  have hmod : w.length % 1024 ≠ 0 := by rw [h]; decide
  refine ⟨?_, ?_, ?_, by decide, by decide⟩
  · rw [fileChunks_length, h]
    decide
  · rw [fileChunks_of_mod_ne_zero hmod, List.getLast?_concat, h]
  · rw [List.length_drop, h]

/-- Claim C4, witness for the amended statement at a concrete waveform. -/
theorem file_5000_block_1024_witness :
    (fileChunks 1024 (List.replicate 5000 (1 : Int))).length = 5 :=
  (file_5000_block_1024 (List.replicate 5000 1)
    (by rw [List.length_replicate])).1

/-- Claim C4, counterexample to the claim as stated: on a waveform of 5000
one-valued samples, the 5th chunk is not 856 real samples followed by 168
zeros (it is 904 real samples followed by 120 zeros). -/
theorem file_5000_block_1024_claim_false :
    (fileChunks 1024 (List.replicate 5000 (1 : Int))).getLast? ≠
      some (List.replicate 856 (1 : Int) ++ List.replicate 168 0) := by
  have h5 : (List.replicate 5000 (1 : Int)).length = 5000 := by
    rw [List.length_replicate]
  have hmod : (List.replicate 5000 (1 : Int)).length % 1024 ≠ 0 := by
    rw [h5]; decide
  rw [fileChunks_of_mod_ne_zero hmod, List.getLast?_concat, h5]
  norm_num
  intro heq
  have h900 : (List.replicate 904 (1 : Int) ++ List.replicate 120 0)[900]? =
      (List.replicate 856 (1 : Int) ++ List.replicate 168 0)[900]? := by
    rw [heq]
  have hL : (List.replicate 904 (1 : Int) ++ List.replicate 120 0)[900]? =
      some 1 := by
    rw [List.getElem?_append_left (by rw [List.length_replicate]; omega)]
    exact List.getElem?_replicate_of_lt (by omega)
  have hR : (List.replicate 856 (1 : Int) ++ List.replicate 168 0)[900]? =
      some 0 := by
    rw [List.getElem?_append_right (by rw [List.length_replicate]; omega)]
    rw [List.length_replicate]
    exact List.getElem?_replicate_of_lt (by omega)
  rw [hL, hR] at h900
  simp at h900

/-- Claim C5: for a waveform whose sample count is an exact multiple of
block_size, FileAudioSource.read emits exactly num_samples / block_size
chunks, which equals the ceiling of num_samples / block_size, each chunk has
exactly block_size samples, and the chunks concatenate back to the original
waveform: no zero padding anywhere and original chronological order. -/
theorem file_exact_multiple_chunks (b : Nat) (w : List Int)
    (hb : 0 < b) (hmod : w.length % b = 0) :
    (fileChunks b w).length = w.length / b ∧
    w.length / b = (w.length + (b - 1)) / b ∧
    (∀ c ∈ fileChunks b w, c.length = b) ∧
    (fileChunks b w).flatten = w := by
  refine ⟨?_, ?_, fileChunks_chunk_length hb w, ?_⟩
  · rw [fileChunks_length, if_pos hmod]
  · obtain ⟨q, hq⟩ : b ∣ w.length := Nat.dvd_of_mod_eq_zero hmod
    rw [hq, Nat.mul_div_cancel_left _ hb, Nat.mul_add_div hb,
      Nat.div_eq_of_lt (by omega), Nat.add_zero]
  · rw [fileChunks_of_mod_eq_zero hmod]
    exact flatten_range_chunks b _ w
      (by rw [Nat.div_mul_cancel (Nat.dvd_of_mod_eq_zero hmod)])

/-- Claim C5, witness at a concrete 8 sample waveform with block size 4. -/
theorem file_exact_multiple_chunks_witness :
    (fileChunks 4 [1, 2, 3, 4, 5, 6, 7, 8]).flatten =
      ([1, 2, 3, 4, 5, 6, 7, 8] : List Int) :=
  (file_exact_multiple_chunks 4 [1, 2, 3, 4, 5, 6, 7, 8]
    (by decide) (by decide)).2.2.2

/-! ### Claim C1: terminal protocol of FileAudioSource.read -/

theorem delivered_shape (evs : List StreamEvent)
    (h : evs.getLast? = some StreamEvent.completed ∨ StreamEvent.error ∈ evs) :
    ∃ (cs : List (List Int)) (t : StreamEvent),
      delivered evs = cs.map StreamEvent.next ++ [t] ∧
      t.isTerminal = true := by
  induction evs with
  | nil => simp at h
  | cons e rest ih =>
    by_cases he : e.isTerminal
    · exact ⟨[], e, by simp [delivered, he], he⟩
    · have hnext : ∃ c, e = StreamEvent.next c := by
        cases e with
        | next c => exact ⟨c, rfl⟩
        | error => simp [StreamEvent.isTerminal] at he
        | completed => simp [StreamEvent.isTerminal] at he
      obtain ⟨c, rfl⟩ := hnext
      have hrest : rest.getLast? = some StreamEvent.completed ∨
          StreamEvent.error ∈ rest := by
        rcases h with h | h
        · cases rest with
          | nil => simp at h
          | cons r rs => exact Or.inl (by rw [List.getLast?_cons_cons] at h; exact h)
        · rcases List.mem_cons.mp h with h | h
          · exact absurd h.symm (by simp)
          · exact Or.inr h
      obtain ⟨cs, t, hd, ht⟩ := ih hrest
      exact ⟨c :: cs, t, by simp [delivered, StreamEvent.isTerminal, hd], ht⟩

theorem fileEmitCalls_ends_completed (chunks : List (List Int))
    (raises : Nat → Bool) :
    (fileEmitCalls chunks raises).getLast? = some StreamEvent.completed := by
  rw [fileEmitCalls, List.getLast?_concat]

/-- Claim C1 (amended): exceptions raised before the chunk loop are NOT
caught: a loading failure, and the unfold of a waveform with fewer than
block_size samples, both propagate to the caller of read() and no event at
all, in particular no error signal, reaches the channel. When loading
succeeds and the waveform has at least block_size samples, the chunk loop
pushes the chunks, converts a per chunk emission exception into an
on_error call in place of that chunk and always ends with on_completed
(the loop is not stopped by an error); because the rx Subject ignores
events pushed after its first terminal, the delivered sequence is zero or
more chunks followed by exactly one terminal signal, and no chunk and no
second terminal signal follows an error. -/
theorem fileRead_protocol (b : Nat) (loadResult : Except String (List Int))
    (raises : Nat → Bool) :
    (∀ e, loadResult = .error e → fileRead b loadResult raises = .error e) ∧
    (∀ w, loadResult = .ok w → w.length < b →
      fileRead b loadResult raises =
        .error "unfold: maximum size for tensor at dimension 1 exceeded") ∧
    (∀ w, loadResult = .ok w → b ≤ w.length →
      fileRead b loadResult raises =
        .ok (fileEmitCalls (fileChunks b w) raises) ∧
      ∃ (cs : List (List Int)) (t : StreamEvent),
        delivered (fileEmitCalls (fileChunks b w) raises) =
          cs.map StreamEvent.next ++ [t] ∧ t.isTerminal = true) := by
  refine ⟨?_, ?_, ?_⟩
  · intro e he
    rw [he]
    rfl
  · intro w hw hlen
    rw [hw]
    simp [fileRead, hlen]
  · intro w hw hlen
    rw [hw]
    refine ⟨by simp [fileRead, Nat.not_lt.mpr hlen], ?_⟩
    exact delivered_shape _ (Or.inl (fileEmitCalls_ends_completed _ _))

/-- Claim C1, witness: the amended protocol at a concrete three sample
waveform, block size two, with the push of chunk 0 raising. -/
theorem fileRead_protocol_witness :
    fileRead 2 (.ok [1, 2, 3]) (fun i => i == 0) =
      .ok (fileEmitCalls (fileChunks 2 [1, 2, 3]) (fun i => i == 0)) ∧
    ∃ (cs : List (List Int)) (t : StreamEvent),
      delivered (fileEmitCalls (fileChunks 2 [1, 2, 3]) (fun i => i == 0)) =
        cs.map StreamEvent.next ++ [t] ∧ t.isTerminal = true :=
  (fileRead_protocol 2 (.ok [1, 2, 3]) (fun i => i == 0)).2.2 [1, 2, 3] rfl
    (by decide)

/-- Claim C1, counterexample to the claim as stated: neither a failing
load nor the unfold of a waveform shorter than block_size is converted
into an error signal on the channel; fileRead propagates the exception
(Except.error) instead of returning events ending in a terminal signal, so
zero terminal signals reach the channel — for the successfully loaded
three sample waveform the claim would require at least one terminal, yet
nothing is emitted. -/
theorem fileRead_loading_failure :
    fileRead 1024 (Except.error "io failure") (fun _ => false) =
      Except.error "io failure" ∧
    fileRead 1024 (Except.ok [1, 2, 3]) (fun _ => false) =
      Except.error "unfold: maximum size for tensor at dimension 1 exceeded" :=
  ⟨rfl, rfl⟩

/-! ### Claim C3: chunk dimensionality -/

/-- Claim C3, counterexample to the claim as stated: the microphone capture
callback on a (4 frames, 2 channels) block enqueues the two dimensional
chunk [[5, 6, 1, 3]] of shape (1, 4): only the first channel survives, but
the chunk is not a three dimensional (1, 1, 4) array. -/
theorem mic_chunk_not_3d :
    micChunk [[5, 7], [6, 8], [1, 2], [3, 4]] = [[5, 6, 1, 3]] ∧
    chunkShape (micChunk [[5, 7], [6, 8], [1, 2], [3, 4]]) = [1, 4] ∧
    (chunkShape (micChunk [[5, 7], [6, 8], [1, 2], [3, 4]])).length ≠ 3 := by
  decide

/-- Claim C3 (amended): emitted chunks are two dimensional, not three
dimensional. The microphone callback keeps only the first input channel of
the (frames, channels) capture block and enqueues its transpose, of shape
(1, frames) with frames = block_size for a full block; every chunk emitted
by FileAudioSource.read has shape (1 channel, block_size samples). -/
theorem chunk_shapes_2d (samples : List (List Int)) (b : Nat) (w : List Int)
    (hb : 0 < b) :
    micChunk samples = [samples.map fun row => row.headD 0] ∧
    chunkShape (micChunk samples) = [1, samples.length] ∧
    ∀ c ∈ fileEmittedChunks b w, chunkShape c = [1, b] := by
  have hm : micChunk samples = [samples.map fun row => row.headD 0] := by
    simp [micChunk, transpose2d, selectFirstChannel, List.range_succ,
      Function.comp]
  refine ⟨hm, ?_, ?_⟩
  · rw [hm]
    simp [chunkShape]
  · intro c hc
    obtain ⟨blk, hblk, rfl⟩ := List.mem_map.mp hc
    simp [chunkShape, fileChunks_chunk_length hb w blk hblk]

/-- Claim C3, witness for the amended statement at a concrete capture block
and file. -/
theorem chunk_shapes_2d_witness :
    chunkShape (micChunk [[3, 9], [4, 8]]) = [1, 2] :=
  (chunk_shapes_2d [[3, 9], [4, 8]] 2 [7, 7, 7, 7] (by decide)).2.1

/-! ### Claims C2 and C10: LazyModel -/

theorem runOp_of_loaded {Model : Type} (s : LazyModel Model) (op : LazyOp)
    (h : s.model.isSome = true) : (s.runOp op).1 = s := by
  simp [LazyModel.runOp, LazyModel.load, LazyModel.is_in_memory, h]

theorem runOps_of_loaded {Model : Type} (s : LazyModel Model)
    (ops : List LazyOp) (h : s.model.isSome = true) : s.runOps ops = s := by
  induction ops with
  | nil => rfl
  | cons op rest ih =>
    simp only [LazyModel.runOps]
    rw [runOp_of_loaded s op h, ih]

/-- Claim C2: immediately after construction the model field of a LazyModel
is null (is_in_memory is false); after any nonempty sequence of load, to,
eval or forward-call operations, the model field holds the loaded model for
the rest of the lifetime (is_in_memory is true) and the injected loader has
been invoked exactly once, however many operations follow in whatever
order. The loader is assumed to return a model on its first invocation. -/
theorem lazy_model_loads_once {Model : Type}
    (loader : Nat → Except String Model) (m : Model)
    (hm : loader 0 = .ok m) (ops : List LazyOp) (hne : ops ≠ []) :
    (LazyModel.mk0 loader).is_in_memory = false ∧
    ((LazyModel.mk0 loader).runOps ops).model = some m ∧
    ((LazyModel.mk0 loader).runOps ops).is_in_memory = true ∧
    ((LazyModel.mk0 loader).runOps ops).loaderCalls = 1 := by
  obtain ⟨op, rest, rfl⟩ := List.exists_cons_of_ne_nil hne
  have h1 : ((LazyModel.mk0 loader).runOp op).1 =
      { get_model := loader, model := some m, loaderCalls := 1 } := by
    simp [LazyModel.runOp, LazyModel.load, LazyModel.mk0,
      LazyModel.is_in_memory, hm]
  have h2 : (LazyModel.mk0 loader).runOps (op :: rest) =
      { get_model := loader, model := some m, loaderCalls := 1 } := by
    simp only [LazyModel.runOps]
    rw [h1]
    exact runOps_of_loaded _ rest rfl
  exact ⟨rfl, by rw [h2], by rw [h2]; rfl, by rw [h2]⟩

/-- Claim C2, witness: a loader returning the model 0, exercised with a
forward call, an explicit load and an eval in sequence. -/
theorem lazy_model_loads_once_witness :
    ((LazyModel.mk0 (fun _ => Except.ok (0 : Nat))).runOps
      [LazyOp.callForward, LazyOp.load, LazyOp.evalMode]).loaderCalls = 1 :=
  (lazy_model_loads_once (fun _ => Except.ok (0 : Nat)) 0 rfl
    [LazyOp.callForward, LazyOp.load, LazyOp.evalMode] (by decide)).2.2.2

/-- Claim C10: when the injected loader raises inside LazyModel.load, the
exception propagates to the caller (the some component), the model field is
still null and is_in_memory still false, and a subsequent load invokes the
loader again: the at-most-once guarantee applies only to successful loads,
and a later successful invocation stores its model. -/
theorem lazy_load_failure {Model : Type} (s : LazyModel Model) (e : String)
    (hnone : s.model = none) (herr : s.get_model s.loaderCalls = .error e) :
    s.load.2 = some e ∧
    s.load.1.model = none ∧
    s.load.1.is_in_memory = false ∧
    s.load.1.loaderCalls = s.loaderCalls + 1 ∧
    (∀ m, s.get_model (s.loaderCalls + 1) = .ok m →
      s.load.1.load.1.model = some m ∧
      s.load.1.load.1.loaderCalls = s.loaderCalls + 2) := by
  have hload : s.load =
      ({ s with loaderCalls := s.loaderCalls + 1 }, some e) := by
    simp [LazyModel.load, LazyModel.is_in_memory, hnone, herr]
  refine ⟨by rw [hload], by rw [hload]; exact hnone, ?_, by rw [hload], ?_⟩
  · rw [hload]
    simp [LazyModel.is_in_memory, hnone]
  · intro m hm
    rw [hload]
    have : ({ s with loaderCalls := s.loaderCalls + 1 } : LazyModel Model).load =
        ({ s with model := some m, loaderCalls := s.loaderCalls + 2 }, none) := by
      simp [LazyModel.load, LazyModel.is_in_memory, hnone, hm]
    rw [this]
    exact ⟨rfl, rfl⟩

/-- Loader used by the witness of the load failure claim: the first
invocation raises, the second returns the model 7. -/
def flakyLoader : Nat → Except String Nat :=
  fun n => if n = 0 then .error "http 404" else .ok 7

/-- Claim C10, witness: the failing first load propagates the exception and
leaves the model out of memory; the retry stores the model. -/
theorem lazy_load_failure_witness :
    (LazyModel.mk0 flakyLoader).load.2 = some "http 404" ∧
    (LazyModel.mk0 flakyLoader).load.1.is_in_memory = false ∧
    (LazyModel.mk0 flakyLoader).load.1.load.1.model = some 7 :=
  have h := lazy_load_failure (LazyModel.mk0 flakyLoader) "http 404" rfl rfl
  ⟨h.1, h.2.2.1, (h.2.2.2.2 7 rfl).1⟩

/-! ### Claim C6: embedding weight normalization -/

theorem foldl_min_le_init (l : List Rat) (a : Rat) : l.foldl min a ≤ a := by
  induction l generalizing a with
  | nil => exact le_refl a
  | cons x rest ih =>
    simp only [List.foldl_cons]
    exact le_trans (ih (min a x)) (min_le_left a x)

theorem foldl_min_le_mem (l : List Rat) (a : Rat) :
    ∀ x ∈ l, l.foldl min a ≤ x := by
  induction l generalizing a with
  | nil => simp
  | cons y rest ih =>
    intro x hx
    simp only [List.foldl_cons]
    rcases List.mem_cons.mp hx with rfl | hx
    · exact le_trans (foldl_min_le_init rest (min a x)) (min_le_right a x)
    · exact ih (min a y) x hx

theorem foldl_min_mem (l : List Rat) (a : Rat) : l.foldl min a ∈ a :: l := by
  induction l generalizing a with
  | nil => simp [List.foldl]
  | cons y rest ih =>
    simp only [List.foldl_cons]
    rcases List.mem_cons.mp (ih (min a y)) with h | h
    · rw [h]
      rcases min_choice a y with hc | hc
      · rw [hc]; exact List.mem_cons_self _ _
      · rw [hc]; exact List.mem_cons_of_mem _ (List.mem_cons_self _ _)
    · exact List.mem_cons_of_mem _ (List.mem_cons_of_mem _ h)

theorem le_foldl_max_init (l : List Rat) (a : Rat) : a ≤ l.foldl max a := by
  induction l generalizing a with
  | nil => exact le_refl a
  | cons x rest ih =>
    simp only [List.foldl_cons]
    exact le_trans (le_max_left a x) (ih (max a x))

theorem le_foldl_max_mem (l : List Rat) (a : Rat) :
    ∀ x ∈ l, x ≤ l.foldl max a := by
  induction l generalizing a with
  | nil => simp
  | cons y rest ih =>
    intro x hx
    simp only [List.foldl_cons]
    rcases List.mem_cons.mp hx with rfl | hx
    · exact le_trans (le_max_right a x) (le_foldl_max_init rest (max a x))
    · exact ih (max a y) x hx

theorem foldl_max_mem (l : List Rat) (a : Rat) : l.foldl max a ∈ a :: l := by
  induction l generalizing a with
  | nil => simp [List.foldl]
  | cons y rest ih =>
    simp only [List.foldl_cons]
    rcases List.mem_cons.mp (ih (max a y)) with h | h
    · rw [h]
      rcases max_choice a y with hc | hc
      · rw [hc]; exact List.mem_cons_self _ _
      · rw [hc]; exact List.mem_cons_of_mem _ (List.mem_cons_self _ _)
    · exact List.mem_cons_of_mem _ (List.mem_cons_of_mem _ h)

theorem rowMin_le {xs : List Rat} {x : Rat} (hx : x ∈ xs) : rowMin xs ≤ x := by
  cases xs with
  | nil => simp at hx
  | cons y rest =>
    rcases List.mem_cons.mp hx with rfl | hx
    · exact foldl_min_le_init rest x
    · exact foldl_min_le_mem rest y x hx

theorem le_rowMax {xs : List Rat} {x : Rat} (hx : x ∈ xs) : x ≤ rowMax xs := by
  cases xs with
  | nil => simp at hx
  | cons y rest =>
    rcases List.mem_cons.mp hx with rfl | hx
    · exact le_foldl_max_init rest x
    · exact le_foldl_max_mem rest y x hx

theorem rowMin_mem {xs : List Rat} (h : xs ≠ []) : rowMin xs ∈ xs := by
  cases xs with
  | nil => exact absurd rfl h
  | cons y rest => exact foldl_min_mem rest y

theorem rowMax_mem {xs : List Rat} (h : xs ≠ []) : rowMax xs ∈ xs := by
  cases xs with
  | nil => exact absurd rfl h
  | cons y rest => exact foldl_max_mem rest y

theorem foldl_max_map_sub (l : List Rat) (a c : Rat) :
    (l.map fun x => x - c).foldl max (a - c) = l.foldl max a - c := by
  induction l generalizing a with
  | nil => rfl
  | cons y rest ih =>
    simp only [List.map_cons, List.foldl_cons, max_sub_sub_right]
    exact ih (max a y)

theorem rowMax_subRowMin (xs : List Rat) (h : xs ≠ []) :
    rowMax (subRowMin xs) = rowMax xs - rowMin xs := by
  cases xs with
  | nil => exact absurd rfl h
  | cons y rest =>
    simp only [subRowMin, List.map_cons, rowMax]
    exact foldl_max_map_sub rest y (rowMin (y :: rest))

theorem nanToNum0_ne_nan (v : FpVal) : nanToNum0 v ≠ FpVal.nan := by
  cases v <;> simp [nanToNum0]

/-- Normalization arithmetic of one batch row: no NaN survives nan_to_num,
a constant row becomes all zeros, and otherwise each entry equals
(x - row min) / (row max - row min). -/
theorem normalizeRow_spec (xs : List Rat) (hne : xs ≠ []) :
    (∀ v ∈ normalizeRow xs, v ≠ FpVal.nan) ∧
    ((∀ x ∈ xs, ∀ y ∈ xs, x = y) →
      normalizeRow xs = List.replicate xs.length (FpVal.val 0)) ∧
    (¬ (∀ x ∈ xs, ∀ y ∈ xs, x = y) →
      ∀ i, i < xs.length →
        (normalizeRow xs).getD i FpVal.nan =
          FpVal.val ((xs.getD i 0 - rowMin xs) / (rowMax xs - rowMin xs))) := by
  refine ⟨?_, ?_, ?_⟩
  · intro v hv
    obtain ⟨u, _, rfl⟩ := List.mem_map.mp hv
    exact nanToNum0_ne_nan u
  · intro hconst
    have hcmem := rowMin_mem hne
    have hsub : subRowMin xs = List.replicate xs.length (0 : Rat) := by
      rw [List.eq_replicate_iff]
      refine ⟨by simp [subRowMin], ?_⟩
      intro b hb
      obtain ⟨x, hx, rfl⟩ := List.mem_map.mp hb
      rw [hconst x hx (rowMin xs) hcmem, sub_self]
    have hmax : rowMax (subRowMin xs) = 0 := by
      rw [hsub]
      have hlen : xs.length ≠ 0 := fun h => hne (List.length_eq_zero.mp h)
      have hnz : List.replicate xs.length (0 : Rat) ≠ [] := by
        intro h
        exact hlen (by simpa using congrArg List.length h)
      exact List.eq_of_mem_replicate (rowMax_mem hnz)
    rw [normalizeRow, divRowMax, hmax, hsub]
    simp [List.map_replicate, fdiv, nanToNum0]
  · intro hconst i hi
    have hlt : rowMin xs < rowMax xs := by
      push_neg at hconst
      obtain ⟨x, hx, y, hy, hxy⟩ := hconst
      rcases lt_or_le (rowMin xs) (rowMax xs) with h | h
      · exact h
      · exfalso
        apply hxy
        have hx1 : x = rowMin xs :=
          le_antisymm (le_trans (le_rowMax hx) h) (rowMin_le hx)
        have hy1 : y = rowMin xs :=
          le_antisymm (le_trans (le_rowMax hy) h) (rowMin_le hy)
        rw [hx1, hy1]
    have hdenom : rowMax xs - rowMin xs ≠ 0 := by
      intro h
      exact absurd (sub_eq_zero.mp h).symm (ne_of_lt hlt)
    have hi1 : i < (normalizeRow xs).length := by
      simpa [normalizeRow, divRowMax, subRowMin] using hi
    rw [List.getD_eq_getElem?_getD, List.getElem?_eq_getElem hi1]
    simp only [normalizeRow, divRowMax, subRowMin, List.getElem_map,
      Option.getD_some]
    simp only [show rowMax (List.map (fun x => x - rowMin xs) xs) =
        rowMax xs - rowMin xs from rowMax_subRowMin xs hne]
    rw [List.getD_eq_getElem?_getD, List.getElem?_eq_getElem hi]
    simp only [fdiv, if_neg hdenom, Option.getD_some, nanToNum0]

/-- Claim C6 (amended): the isinstance dispatch in
PyannoteEmbeddingModel.__call__ inspects the model field before any load,
so on the first call of a cold wrapper whose loader yields the WeSpeaker
variant the base call runs and hands the underlying model the raw,
unnormalized weighting. Only on a call made while the WeSpeaker model is
already in memory is the weighting handed over min-max normalized per
batch row — row minimum subtracted, then divided by the shifted row
maximum, equal to (x - min) / (max - min) elementwise — with any NaN from
a zero-range row replaced by zero, so a constant row is handed over as all
zeros and no NaN is ever handed over. -/
theorem embedding_weight_normalization (s : LazyModel EmbModel)
    (ws : List (List Rat)) (hmem : s.model = some EmbModel.wespeaker) :
    (embeddingCall s ws).2 = some (normalizeWeights ws) ∧
    (embeddingCall s ws).1.model = some EmbModel.wespeaker ∧
    ∀ row ∈ ws, row ≠ [] →
      (∀ v ∈ normalizeRow row, v ≠ FpVal.nan) ∧
      ((∀ x ∈ row, ∀ y ∈ row, x = y) →
        normalizeRow row = List.replicate row.length (FpVal.val 0)) ∧
      (¬ (∀ x ∈ row, ∀ y ∈ row, x = y) →
        ∀ i, i < row.length →
          (normalizeRow row).getD i FpVal.nan =
            FpVal.val ((row.getD i 0 - rowMin row) /
              (rowMax row - rowMin row))) := by
  have hload : s.load = (s, none) := by
    simp [LazyModel.load, LazyModel.is_in_memory, hmem]
  refine ⟨?_, ?_, ?_⟩
  · simp [embeddingCall, hmem]
  · simp [embeddingCall, hmem, hload]
  · intro row _ hne
    exact normalizeRow_spec row hne

/-- Claim C6, counterexample to the claim as stated: the first call of a
cold wrapper whose loader yields the WeSpeaker variant hands the raw
constant weighting row (2, 2, 2) to the underlying model, not the
normalized all zero row the claim requires of every call. -/
theorem embedding_first_call_unnormalized :
    (embeddingCall (LazyModel.mk0 fun _ => Except.ok EmbModel.wespeaker)
      [[2, 2, 2]]).2 = some [[FpVal.val 2, FpVal.val 2, FpVal.val 2]] ∧
    (embeddingCall (LazyModel.mk0 fun _ => Except.ok EmbModel.wespeaker)
      [[2, 2, 2]]).2 ≠ some [List.replicate 3 (FpVal.val 0)] := by
  decide

/-- Claim C6, witness: a warm wrapper hands over the normalized weights,
and the constant row (2, 2, 2) is handed over as zeros, not NaN. -/
theorem embedding_weight_normalization_witness :
    (embeddingCall loadedWeSpeaker [[2, 2, 2]]).2 =
      some (normalizeWeights [[2, 2, 2]]) ∧
    normalizeRow [2, 2, 2] = List.replicate 3 (FpVal.val 0) :=
  ⟨(embedding_weight_normalization loadedWeSpeaker [[2, 2, 2]] rfl).1,
   ((embedding_weight_normalization loadedWeSpeaker [[2, 2, 2]] rfl).2.2
      [2, 2, 2] (by decide) (by decide)).2.1 (by decide)⟩

/-! ### Claim C8: optimal_block_size -/

/-- Claim C8: optimal_block_size computes np.rint of step * sample_rate, a
nearest integer to the exact product (np.rint rounds half to even, so the
result always lies within one half of the product), and for step = 0.5
seconds at sample_rate = 16000 Hz it returns 8000. -/
theorem optimal_block_size_rounds (step : Rat) (sample_rate : Nat) :
    optimal_block_size step sample_rate = rint (step * sample_rate) ∧
    |step * (sample_rate : Rat) - (rint (step * (sample_rate : Rat)) : Rat)| ≤
      1 / 2 ∧
    optimal_block_size (1 / 2) 16000 = 8000 := by
  refine ⟨rfl, ?_, ?_⟩
  · generalize step * ((sample_rate : Nat) : Rat) = q
    have h0 : ((⌊q⌋ : Int) : Rat) ≤ q := Int.floor_le q
    have h1 : q < ⌊q⌋ + 1 := Int.lt_floor_add_one q
    rw [rint]
    by_cases hc1 : q - ⌊q⌋ < 1 / 2
    · rw [if_pos hc1, abs_le]
      constructor <;> linarith
    · rw [if_neg hc1]
      by_cases hc2 : (1 : Rat) / 2 < q - ⌊q⌋
      · rw [if_pos hc2]
        push_cast
        rw [abs_le]
        constructor <;> linarith
      · rw [if_neg hc2]
        have heq : q - ⌊q⌋ = 1 / 2 := le_antisymm (not_lt.mp hc2) (not_lt.mp hc1)
        by_cases hpar : (⌊q⌋ : Int) % 2 = 0
        · rw [if_pos hpar, abs_le]
          constructor <;> linarith
        · rw [if_neg hpar]
          push_cast
          rw [abs_le]
          constructor <;> linarith
  · have hq : (1 : Rat) / 2 * ((16000 : Nat) : Rat) = 8000 := by norm_num
    rw [optimal_block_size, hq, rint]
    norm_num

/-! ### Claim C9: HyperParameter.from_name -/

/-- Claim C9: HyperParameter.from_name raises an error immediately and
synchronously (the Except error of the lookup itself, not an event deferred
into any stream) for every name outside the three recognized ones, and for
the recognized names returns tau_active with range (0, 1), rho_update with
range (0, 1) and delta_new with range (0, 2). -/
theorem from_name_spec (name : String)
    (h1 : name ≠ "tau_active") (h2 : name ≠ "rho_update")
    (h3 : name ≠ "delta_new") :
    HyperParameter.from_name name =
      .error ("Hyper-parameter " ++ name ++ " not recognized") ∧
    HyperParameter.from_name "tau_active" =
      .ok { name := "tau_active", low := 0, high := 1 } ∧
    HyperParameter.from_name "rho_update" =
      .ok { name := "rho_update", low := 0, high := 1 } ∧
    HyperParameter.from_name "delta_new" =
      .ok { name := "delta_new", low := 0, high := 2 } := by
  refine ⟨?_, by rfl, by rfl, by rfl⟩
  rw [HyperParameter.from_name, if_neg h1, if_neg h2, if_neg h3]

/-- Claim C9, witness: an unrecognized name produces the error value, and
the recognized ranges are as documented. -/
theorem from_name_spec_witness :
    HyperParameter.from_name "momentum" =
      .error ("Hyper-parameter " ++ "momentum" ++ " not recognized") :=
  (from_name_spec "momentum" (by decide) (by decide) (by decide)).1

/-! ### Claim C7: send before read on the websocket source -/

/-- Claim C7: calling send on a WebSocketAudioSource in its state right
after construction, before read has been invoked (so no event loop is
running), raises the not ready error synchronously — the error the spec
names NotReadyError — whose message explains that read() must be called
first, and no message is transmitted: send never returns a state, so
nothing is added to the sent messages. -/
theorem ws_send_before_read (message : String) :
    wsSend wsInit message =
      .error (WSError.notReady "Websocket is not open, try calling read() first") ∧
    ∀ s' : WSState, wsSend wsInit message ≠ .ok s' := by
  constructor
  · rfl
  · intro s' h
    simp [wsSend, wsInit] at h

/-- Claim C7, witness: sending the message hello before read raises the not
ready error. -/
theorem ws_send_before_read_witness :
    wsSend wsInit "hello" =
      .error (WSError.notReady "Websocket is not open, try calling read() first") :=
  (ws_send_before_read "hello").1
